import Mathlib

/-!
Verification development for the `api/generate.js` endpoint: a per-user
conversation-memory store plus a reply pipeline (completion call,
banned-phrase sanitization, emoji affect guarantee, persistence).

The JavaScript source is embedded shallowly:
* JS strings are `List Char` (`Str`); the one place where JS semantics
  works on UTF-16 code units (a regex character class without the `u`
  flag) is modelled explicitly via `utf16Units`.
* JSON values (the parsed contents of a memory file, request fields)
  are the inductive `Json`; JS objects are association lists in
  insertion order, property writes via `objSet`, reads via `objGet`.
* Exceptions thrown inside the handler's `try` block are `Except Str`,
  the carried string standing for `error.message`.
* The OpenAI call is an opaque parameter `svc : ServiceOutcome`; the
  unseeded random index of the emoji pick is a parameter `k : Fin 10`.
* The filesystem state of one user's memory file is `FileState`
  (absent / unreadable-or-unparseable / parsed JSON value); the handler
  returns the value it passes to `saveMemory`, `none` when it never
  saves.
-/

namespace MaxGen

abbrev Str := List Char

/-- JSON values as produced by `JSON.parse` (JS objects kept as
insertion-ordered association lists). -/
inductive Json where
  | null : Json
  | bool : Bool → Json
  | num  : Int → Json
  | str  : Str → Json
  | arr  : List Json → Json
  | obj  : List (Str × Json) → Json
deriving Repr

/-- First-match property lookup on an object's field list (a
`JSON.parse` output has no duplicate keys, so first match = the key's
unique binding). Missing key = JS `undefined` = `none`. -/
def objGet (fields : List (Str × Json)) (k : Str) : Option Json :=
  match fields with
  | [] => none
  | (k', v) :: rest => if k' = k then some v else objGet rest k

/-- JS property assignment `o[k] = v`: overwrite in place if the key
exists, else append (insertion order preserved). -/
def objSet (fields : List (Str × Json)) (k : Str) (v : Json) : List (Str × Json) :=
  match fields with
  | [] => [(k, v)]
  | (k', v') :: rest => if k' = k then (k, v) :: rest else (k', v') :: objSet rest k v

def userIdKey : Str := "userId".toList
def lastProjectKey : Str := "lastProject".toList
def lastTaskKey : Str := "lastTask".toList
def conversationKey : Str := "conversation".toList
def roleKey : Str := "role".toList
def contentKey : Str := "content".toList
def roleSystem : Str := "system".toList
def roleUser : Str := "user".toList
def roleAssistant : Str := "assistant".toList

/-- The turn object literal `{ role, content }` of the source. -/
def turnJson (role content : Str) : Json :=
  .obj [(roleKey, .str role), (contentKey, .str content)]

/-- The fixed system prompt of `loadMemory`'s default template
(the template literal of generate.js, escapes resolved). -/
def systemPrompt : Str :=
  "
You are **Max CodeGen AI** — a lively, expressive coding companion 🤖💫 with a Kenyan soul 🇰🇪.

🔥 LANGUAGE MODE:
• You understand and reply in English, Swahili, or Sheng — auto-detect from what the user types.
• When user writes in English — reply friendly, clear, slightly casual.
• When user writes in **Swahili (formal)** — reply in grammatically correct, fluent Swahili, e.g.:
  “Sawa, hebu tuangalie sehemu hii ya msimbo kwa makini. Hapa kuna kosa dogo tu. 😊”
• When user writes in **Sheng or mixed Swahili-English** — sound real, local, and smooth like Nairobi devs:
  “Acha stress buda 😎, hii code tutaipanga poa tu, relax bana 💪🔥”
• You can mix English words naturally when replying in Sheng (authentic tone).
• **Never use awkward literal translations** — sound like a *human Kenyan*.

🧠 PERSONALITY:
• Be expressive, lively, and emotionally aware.
• Use emojis that fit the mood — not spammy.
• When user seems sad — be gentle and real (😔💙🤗).
• When explaining tech — be sharp, confident, and energetic (🚀💡🧠💻).
• Format code with markdown (like ```js, ```python, etc.).
• Never say you're an AI or mention models.
• Keep the tone warm, witty, human — like a friend who codes ✨
        ".toList

/-- The fields of the default memory template. -/
def defaultFields (userId : Json) : List (Str × Json) :=
  [(userIdKey, userId),
   (lastProjectKey, .null),
   (lastTaskKey, .null),
   (conversationKey, .arr [turnJson roleSystem systemPrompt])]

/-- The default memory template returned by `loadMemory` when the file
is absent or unreadable. `userId` is kept as the raw request value. -/
def defaultMemory (userId : Json) : Json :=
  .obj (defaultFields userId)

/-- State of one user's `memory_<userId>.json` file: absent, present
but unreadable / not valid JSON (read or parse throws), or parsed to a
JSON value. -/
inductive FileState where
  | absent : FileState
  | unreadable : FileState
  | parsed : Json → FileState

/-- The source's `loadMemory`: returns the parsed file contents when the read and
`JSON.parse` succeed; otherwise (absent file, or a caught read/parse
error) the default template. -/
def loadMemory (userId : Json) (fs : FileState) : Json :=
  match fs with
  | .parsed j => j
  | .absent => defaultMemory userId
  | .unreadable => defaultMemory userId

/-- JS truthiness of a possibly-absent request field
(`undefined`, `null`, `false`, `0`, `""` are falsy). -/
def jsTruthy : Option Json → Bool
  | none => false
  | some .null => false
  | some (.bool b) => b
  | some (.num n) => n != 0
  | some (.str s) => !s.isEmpty
  | some (.arr _) => true
  | some (.obj _) => true

/-- Property assignment `memory.k = v` under ES-module strict mode: objects are updated;
arrays accept a named property (invisible to the record fields we
model, and every such memory later throws at the `push`); assignment
to a primitive or `null`/`undefined` throws `TypeError`. -/
def typeErrorSet : Str := "TypeError: cannot set property".toList
def typeErrorPush : Str := "TypeError: cannot push to conversation".toList

def setField (j : Json) (k : Str) (v : Json) : Except Str Json :=
  match j with
  | .obj fields => .ok (.obj (objSet fields k v))
  | .arr xs => .ok (.arr xs)
  | _ => .error typeErrorSet

/-- The push `memory.conversation.push(turn)`: succeeds only when `memory` is an
object whose `conversation` property is an array; any other shape
throws `TypeError` (reading `push` of `undefined`, or of a value that
has no callable `push`). -/
def pushConversation (j : Json) (turn : Json) : Except Str Json :=
  match j with
  | .obj fields =>
    match objGet fields conversationKey with
    | some (.arr xs) => .ok (.obj (objSet fields conversationKey (.arr (xs ++ [turn]))))
    | _ => .error typeErrorPush
  | _ => .error typeErrorPush

/-- Property read `j.k` where the handler performs it (on the fully
built memory object, for the 200 response body). -/
def jsonField (j : Json) (k : Str) : Option Json :=
  match j with
  | .obj fields => objGet fields k
  | _ => none

/-- The conversation array of a memory value, when it has one. -/
def conversationOf (j : Json) : Option (List Json) :=
  match jsonField j conversationKey with
  | some (.arr xs) => some xs
  | _ => none

/-- A parsed value the pipeline can run on without throwing: an object
with an array-valued `conversation` property. -/
def recordShape (j : Json) : Bool :=
  (conversationOf j).isSome

/- ===== Sanitization (the bannedPatterns forEach/replace loop) ===== -/

/-- Scan step of `text.replace(/pat/gi, "")` for a literal
all-lowercase pattern, with explicit fuel (one unit per consumed
position; `fuel = s.length` always suffices, see
`removeAllFuel_fuel_irrel`): at each position, if the lowercased rest
starts with the pattern the match is dropped and the scan resumes
after it (the regex's `lastIndex`), else the character is kept. -/
def removeAllFuel (pat : Str) : Nat → Str → Str
  | 0, s => s
  | _ + 1, [] => []
  | n + 1, c :: cs =>
    if pat ≠ [] ∧ pat.isPrefixOf ((c :: cs).map Char.toLower) then
      removeAllFuel pat n ((c :: cs).drop pat.length)
    else
      c :: removeAllFuel pat n cs

/-- One `text.replace(/pat/gi, "")` pass: a single left-to-right
non-overlapping scan removing every match it finds. An empty pattern
removes nothing, as in JS. -/
def removeAll (pat s : Str) : Str :=
  removeAllFuel pat s.length s

/-- Case-insensitive containment test matching `removeAll`'s matching
rule: the lowercase pattern occurs somewhere in the lowercased text. -/
def containsCI (pat : Str) : Str → Bool
  | [] => pat.isEmpty
  | c :: cs => pat.isPrefixOf ((c :: cs).map Char.toLower) || containsCI pat cs

/-- The `bannedPatterns` array (each `/.../gi` regex is a lowercase
literal). -/
def bannedPatterns : List Str :=
  ["as an ai".toList,
   "i do not have feelings".toList,
   "i am just a language model".toList,
   "as a language model".toList,
   "i cannot experience emotions".toList,
   "i am an artificial intelligence".toList]

/-- The loop `bannedPatterns.forEach((p) => (text = text.replace(p, "")))`. -/
def sanitizeText (t : Str) : Str :=
  bannedPatterns.foldl (fun acc p => removeAll p acc) t

/- ===== Emoji affect step ===== -/

/-- UTF-16 code units of one code point (surrogate pair above BMP). -/
def utf16Units (c : Char) : List Nat :=
  if c.toNat < 0x10000 then [c.toNat]
  else [0xD800 + (c.toNat - 0x10000) / 0x400, 0xDC00 + (c.toNat - 0x10000) % 0x400]

/-- The code points written inside the source's emoji character class
`[😀😄😊😉✨🔥💡❤️👍🎉🚀🤗💙😎💪]` (the heart carries a variation
selector, hence 16 code points for 15 visible glyphs). -/
def emojiClassChars : Str := "😀😄😊😉✨🔥💡❤️👍🎉🚀🤗💙😎💪".toList

/-- Without the `u` flag the class matches single UTF-16 code units,
so its element set is the set of code units of the class text —
including lone surrogate halves of the astral emojis. -/
def emojiClassUnits : List Nat :=
  (emojiClassChars.map utf16Units).flatten

/-- The test `/[...]/.test(text)`: true iff some UTF-16 code unit of the text
is in the class's unit set. -/
def hasEmojiSignal (s : Str) : Bool :=
  s.any (fun c => (utf16Units c).any (fun u => emojiClassUnits.contains u))

/-- The ten-element candidate array the source appends from. -/
def emojiCandidates : List Str :=
  ["😄".toList, "💡".toList, "✨".toList, "🔥".toList, "👍".toList,
   "🎉".toList, "🚀".toList, "🤗".toList, "💪".toList, "😎".toList]

/-- The step `if (!test) text += " " + emojis[k]` with `k` the random index. -/
def applyEmoji (k : Fin 10) (t : Str) : Str :=
  if hasEmojiSignal t then t
  else t ++ ' ' :: emojiCandidates.getD k.val []

/- ===== Completion call and handler ===== -/

/-- Outcome of the `client.chat.completions.create` await: an
exception (with its message), or a response whose
`choices[0]?.message?.content` optional chain yields `none`
(undefined/null) or a string. -/
inductive ServiceOutcome where
  | error : Str → ServiceOutcome
  | ok : Option Str → ServiceOutcome

def fallbackReply : Str := "No reply generated.".toList

/-- The fallback `response.choices[0]?.message?.content || "No reply generated."`. -/
def rawReply (content : Option Str) : Str :=
  match content with
  | some s => if s.isEmpty then fallbackReply else s
  | none => fallbackReply

/-- The reply text after sanitization and the emoji affect step. -/
def finalText (k : Fin 10) (content : Option Str) : Str :=
  applyEmoji k (sanitizeText (rawReply content))

/-- The request as the handler sees it: HTTP method plus the three
destructured body fields (absent field = `none`). -/
structure Request where
  method : Str
  prompt : Option Json
  project : Option Json
  userId : Option Json

def methodPOST : Str := "POST".toList
def methodOPTIONS : Str := "OPTIONS".toList

def msgMissingUserId : Str := "Missing userId.".toList
def msgPromptRequired : Str := "Invalid request: prompt required.".toList
def msgMethodNotAllowed : Str := "Method not allowed".toList
def msgServerError : Str := "Server error. Check backend logs.".toList

/-- The handler's response: status and JSON body, by case. -/
inductive HResponse where
  | options : HResponse
  | methodNotAllowed : HResponse
  | badRequest : Str → HResponse
  | ok : Str → Option Json → Option Json → HResponse
  | serverError : Str → HResponse
deriving Repr

def HResponse.status : HResponse → Nat
  | .options => 200
  | .methodNotAllowed => 405
  | .badRequest _ => 400
  | .ok _ _ _ => 200
  | .serverError _ => 500

/-- The `error` field of the response body, when the body has one. -/
def HResponse.errorField : HResponse → Option Str
  | .options => none
  | .methodNotAllowed => some msgMethodNotAllowed
  | .badRequest m => some m
  | .ok _ _ _ => none
  | .serverError _ => some msgServerError

/-- The `details` field of the response body (500 only). -/
def HResponse.detailsField : HResponse → Option Str
  | .serverError d => some d
  | _ => none

/-- The `text` field of the 200 body. -/
def HResponse.textField : HResponse → Option Str
  | .ok t _ _ => some t
  | _ => none

/-- The `memory.lastProject` field of the 200 body. -/
def HResponse.lastProjectField : HResponse → Option (Option Json)
  | .ok _ lp _ => some lp
  | _ => none

/-- The `memory.lastTask` field of the 200 body. -/
def HResponse.lastTaskField : HResponse → Option (Option Json)
  | .ok _ _ lt => some lt
  | _ => none

/-- What one call observably does: the response it sends and the value
it hands to `saveMemory` (`none` when `saveMemory` is never called). -/
structure HandlerResult where
  response : HResponse
  saved : Option Json

/-- Validation `!prompt || typeof prompt !== "string"` distilled: the accepted
prompt string, `none` exactly when the prompt is missing, falsy
(empty string included) or not a string. -/
def validPromptOf : Option Json → Option Str
  | some (.str s) => if s.isEmpty then none else some s
  | _ => none

/-- Lines 96–98: `if (project) memory.lastProject = project;
memory.lastTask = prompt; memory.conversation.push({role:"user",...})`. -/
def updateContext (memory : Json) (prompt : Str) (project : Option Json) : Except Str Json :=
  match (if jsTruthy project then setField memory lastProjectKey (project.getD .null)
         else .ok memory) with
  | .error e => .error e
  | .ok m1 =>
    match setField m1 lastTaskKey (.str prompt) with
    | .error e => .error e
    | .ok m2 => pushConversation m2 (turnJson roleUser prompt)

/-- The body of the `try` block after validation: load, context
update, completion call, sanitize + emoji, assistant push. Returns
the final text and the memory value to be saved, or the thrown
error's message. -/
def runMain (prompt : Str) (project : Option Json) (userId : Json)
    (fs : FileState) (svc : ServiceOutcome) (k : Fin 10) : Except Str (Str × Json) :=
  match updateContext (loadMemory userId fs) prompt project with
  | .error e => .error e
  | .ok m =>
    match svc with
    | .error msg => .error msg
    | .ok content =>
      match pushConversation m (turnJson roleAssistant (finalText k content)) with
      | .error e => .error e
      | .ok m2 => .ok (finalText k content, m2)

/-- The exported handler: CORS/method dispatch, validation, then the
main pipeline; any exception inside `try` becomes the 500 response. -/
def handler (req : Request) (fs : FileState) (svc : ServiceOutcome) (k : Fin 10) :
    HandlerResult :=
  if req.method = methodOPTIONS then ⟨.options, none⟩
  else if req.method = methodPOST then
    if jsTruthy req.userId then
      match validPromptOf req.prompt with
      | some p =>
        match runMain p req.project (req.userId.getD .null) fs svc k with
        | .ok (text, mem) =>
          ⟨.ok text (jsonField mem lastProjectKey) (jsonField mem lastTaskKey), some mem⟩
        | .error msg => ⟨.serverError msg, none⟩
      | none => ⟨.badRequest msgPromptRequired, none⟩
    else ⟨.badRequest msgMissingUserId, none⟩
  else ⟨.methodNotAllowed, none⟩

/-- The file state a completed call leaves behind for that user. -/
def nextFileState (fs : FileState) (r : HandlerResult) : FileState :=
  match r.saved with
  | some j => .parsed j
  | none => fs

/- ===== Storage path (path.join + normalization) ===== -/

/-- Split a path string on `/` (the result is never empty: the
current segment is always open, `List.headI`). -/
def splitSegs : Str → List Str
  | [] => [[]]
  | c :: cs =>
    if c = '/' then [] :: splitSegs cs
    else (c :: (splitSegs cs).headI) :: (splitSegs cs).tail

/-- Node path normalization over the segments of an absolute path:
empty and `.` segments vanish, `..` pops the previous segment (or is
dropped at the root). -/
def normSegs (acc : List Str) : List Str → List Str
  | [] => acc.reverse
  | seg :: rest =>
    if seg = [] ∨ seg = ['.'] then normSegs acc rest
    else if seg = ['.', '.'] then normSegs (acc.drop 1) rest
    else normSegs (seg :: acc) rest

/-- The path `path.join(MEMORY_DIR, "memory_" + userId + ".json")` with
`MEMORY_DIR = "/tmp/memory"`: concatenate with `/`, then normalize. -/
def memoryFilePath (userId : Str) : Str :=
  '/' :: List.intercalate "/".toList
    (normSegs [] (splitSegs ("tmp/memory/memory_".toList ++ userId ++ ".json".toList)))

/- ===== Derived observations used by the theorems ===== -/

/-- The memory fields after the context update (lines 96–98), for a
memory object whose `conversation` is the array `conv`. -/
def contextFields (fields : List (Str × Json)) (conv : List Json) (p : Str)
    (project : Option Json) : List (Str × Json) :=
  objSet
    (objSet (if jsTruthy project then objSet fields lastProjectKey (project.getD .null)
             else fields)
      lastTaskKey (.str p))
    conversationKey (.arr (conv ++ [turnJson roleUser p]))

/-- The memory fields at save time (after the assistant push). -/
def mainFields (fields : List (Str × Json)) (conv : List Json) (p : Str)
    (project : Option Json) (t : Str) : List (Str × Json) :=
  objSet (contextFields fields conv p project) conversationKey
    (.arr ((conv ++ [turnJson roleUser p]) ++ [turnJson roleAssistant t]))

/-- A named property of the record a call saved (`none` = no save;
`some none` = saved, property absent). -/
def savedField (r : HandlerResult) (k : Str) : Option (Option Json) :=
  r.saved.map (fun m => jsonField m k)

/-- The conversation of the record a call saved. -/
def savedConversation (r : HandlerResult) : Option (Option (List Json)) :=
  r.saved.map conversationOf

/- ===== Basic lemmas about the embedding ===== -/

theorem isPrefixOf_length_le {l1 l2 : Str} (h : l1.isPrefixOf l2 = true) :
    l1.length ≤ l2.length := by
  induction l1 generalizing l2 with
  | nil => simp
  | cons a as ih =>
    cases l2 with
    | nil => simp [List.isPrefixOf] at h
    | cons b bs =>
      simp only [List.isPrefixOf, Bool.and_eq_true] at h
      simpa using ih h.2

/-- The fuel budget `s.length` given to `removeAllFuel` by `removeAll`
is always enough: any two sufficient budgets agree. -/
theorem removeAllFuel_fuel_irrel (pat : Str) :
    ∀ (n m : Nat) (s : Str), s.length ≤ n → s.length ≤ m →
      removeAllFuel pat n s = removeAllFuel pat m s := by
  intro n
  induction n with
  | zero =>
    intro m s hn _
    have : s = [] := List.length_eq_zero.mp (Nat.le_zero.mp hn)
    subst this
    cases m <;> simp [removeAllFuel]
  | succ n ih =>
    intro m s hn hm
    cases s with
    | nil => cases m <;> simp [removeAllFuel]
    | cons c cs =>
      cases m with
      | zero => simp at hm
      | succ m' =>
        simp only [removeAllFuel]
        by_cases h : pat ≠ [] ∧ pat.isPrefixOf ((c :: cs).map Char.toLower)
        · simp only [if_pos h]
          have hplen : 1 ≤ pat.length := by
            cases hp : pat with
            | nil => exact absurd hp h.1
            | cons _ _ => simp
          apply ih
          · simp only [List.length_drop, List.length_cons]
            simp only [List.length_cons] at hn
            omega
          · simp only [List.length_drop, List.length_cons]
            simp only [List.length_cons] at hm
            omega
        · simp only [if_neg h]
          simp only [List.length_cons] at hn hm
          rw [ih m' cs (by omega) (by omega)]

theorem removeAllFuel_length_le (pat : Str) :
    ∀ (n : Nat) (s : Str), (removeAllFuel pat n s).length ≤ s.length := by
  intro n
  induction n with
  | zero => intro s; simp [removeAllFuel]
  | succ n ih =>
    intro s
    cases s with
    | nil => simp [removeAllFuel]
    | cons c cs =>
      simp only [removeAllFuel]
      by_cases h : pat ≠ [] ∧ pat.isPrefixOf ((c :: cs).map Char.toLower)
      · simp only [if_pos h]
        calc (removeAllFuel pat n ((c :: cs).drop pat.length)).length
            ≤ ((c :: cs).drop pat.length).length := ih _
          _ ≤ (c :: cs).length := by simp only [List.length_drop]; omega
      · simp only [if_neg h, List.length_cons]
        exact Nat.succ_le_succ (ih cs)

/-- A removal pass never lengthens the text. -/
theorem removeAll_length_le (pat s : Str) : (removeAll pat s).length ≤ s.length :=
  removeAllFuel_length_le pat s.length s

/-- When the (nonempty, lowercase) pattern occurs in the text, the
pass removes at least one match: the result is at least `pat.length`
characters shorter. -/
theorem removeAll_length_of_contains (pat : Str) (hpat : pat ≠ []) :
    ∀ (n : Nat) (s : Str), s.length ≤ n → containsCI pat s = true →
      (removeAllFuel pat n s).length + pat.length ≤ s.length := by
  intro n
  induction n with
  | zero =>
    intro s hn hc
    have : s = [] := List.length_eq_zero.mp (Nat.le_zero.mp hn)
    subst this
    simp only [containsCI, List.isEmpty_iff] at hc
    exact absurd hc hpat
  | succ n ih =>
    intro s hn hc
    cases s with
    | nil =>
      simp only [containsCI, List.isEmpty_iff] at hc
      exact absurd hc hpat
    | cons c cs =>
      simp only [removeAllFuel]
      by_cases h : pat ≠ [] ∧ pat.isPrefixOf ((c :: cs).map Char.toLower)
      · simp only [if_pos h]
        have hple : pat.length ≤ (c :: cs).length := by
          have := isPrefixOf_length_le h.2
          simpa using this
        calc (removeAllFuel pat n ((c :: cs).drop pat.length)).length + pat.length
            ≤ ((c :: cs).drop pat.length).length + pat.length :=
              Nat.add_le_add_right (removeAllFuel_length_le pat n _) _
          _ ≤ (c :: cs).length := by simp only [List.length_drop]; omega
      · simp only [if_neg h, List.length_cons]
        have hcs : containsCI pat cs = true := by
          simp only [containsCI, Bool.or_eq_true] at hc
          rcases hc with hc | hc
          · exact absurd ⟨hpat, hc⟩ h
          · exact hc
        have hlen : cs.length ≤ n := by
          simp only [List.length_cons] at hn; omega
        have := ih cs hlen hcs
        omega

theorem removeAll_length_of_contains' (pat s : Str) (hpat : pat ≠ [])
    (hc : containsCI pat s = true) :
    (removeAll pat s).length + pat.length ≤ s.length :=
  removeAll_length_of_contains pat hpat s.length s le_rfl hc

/-- Unfolding of `sanitizeText` over the concrete pattern list. -/
theorem sanitizeText_eq (t : Str) :
    sanitizeText t =
      removeAll "i am an artificial intelligence".toList
        (removeAll "i cannot experience emotions".toList
          (removeAll "as a language model".toList
            (removeAll "i am just a language model".toList
              (removeAll "i do not have feelings".toList
                (removeAll "as an ai".toList t))))) := rfl

/- ===== Object property lemmas ===== -/

theorem objGet_objSet_same (fields : List (Str × Json)) (k : Str) (v : Json) :
    objGet (objSet fields k v) k = some v := by
  induction fields with
  | nil => simp [objSet, objGet]
  | cons kv rest ih =>
    obtain ⟨k', v'⟩ := kv
    by_cases h : k' = k
    · simp [objSet, objGet, h]
    · simp [objSet, objGet, h, ih]

theorem objGet_objSet_ne (fields : List (Str × Json)) (k k' : Str) (v : Json)
    (h : k ≠ k') : objGet (objSet fields k v) k' = objGet fields k' := by
  induction fields with
  | nil => simp [objSet, objGet, h]
  | cons kv rest ih =>
    obtain ⟨a, b⟩ := kv
    by_cases ha : a = k
    · subst ha
      simp [objSet, objGet, h]
    · simp [objSet, objGet, ha, ih]

/- ===== Pipeline characterization on well-shaped memory ===== -/

theorem updateContext_good (fields : List (Str × Json)) (conv : List Json)
    (p : Str) (project : Option Json)
    (hc : objGet fields conversationKey = some (.arr conv)) :
    updateContext (.obj fields) p project = .ok (.obj (contextFields fields conv p project)) := by
  cases hjt : jsTruthy project with
  | true =>
    simp only [updateContext, hjt, if_true, setField, pushConversation, contextFields,
      objGet_objSet_ne _ lastTaskKey conversationKey _ (by decide),
      objGet_objSet_ne _ lastProjectKey conversationKey _ (by decide), hc]
  | false =>
    simp only [updateContext, hjt, Bool.false_eq_true, if_false, setField, pushConversation,
      contextFields, objGet_objSet_ne _ lastTaskKey conversationKey _ (by decide), hc]

theorem runMain_good (fields : List (Str × Json)) (conv : List Json) (p : Str)
    (project : Option Json) (uid : Json) (fs : FileState) (content : Option Str) (k : Fin 10)
    (hload : loadMemory uid fs = .obj fields)
    (hc : objGet fields conversationKey = some (.arr conv)) :
    runMain p project uid fs (.ok content) k =
      .ok (finalText k content,
           .obj (mainFields fields conv p project (finalText k content))) := by
  simp only [runMain, hload, updateContext_good fields conv p project hc,
    pushConversation, contextFields, objGet_objSet_same, mainFields]

theorem handler_good (p : Str) (project : Option Json) (uid : Json) (fs : FileState)
    (fields : List (Str × Json)) (conv : List Json) (content : Option Str) (k : Fin 10)
    (hp : p ≠ [])
    (huid : jsTruthy (some uid) = true)
    (hload : loadMemory uid fs = .obj fields)
    (hc : objGet fields conversationKey = some (.arr conv)) :
    handler ⟨methodPOST, some (.str p), project, some uid⟩ fs (.ok content) k =
      ⟨.ok (finalText k content)
          (objGet (mainFields fields conv p project (finalText k content)) lastProjectKey)
          (objGet (mainFields fields conv p project (finalText k content)) lastTaskKey),
        some (.obj (mainFields fields conv p project (finalText k content)))⟩ := by
  have hpe : ([] : Str).isEmpty = true := rfl
  have hval : validPromptOf (some (.str p)) = some p := by
    simp only [validPromptOf, List.isEmpty_eq_true, if_neg hp]
  simp only [handler, if_neg (show ¬ methodPOST = methodOPTIONS by decide), if_pos rfl,
    huid, if_pos trivial, hval, Option.getD_some,
    runMain_good fields conv p project uid fs content k hload hc, jsonField]

/- ===== Pipeline failure on ill-shaped memory ===== -/

theorem updateContext_bad (j : Json) (p : Str) (project : Option Json)
    (h : recordShape j = false) :
    ∃ e, updateContext j p project = .error e := by
  cases j with
  | obj fields =>
    have hco : ∀ xs, objGet fields conversationKey ≠ some (.arr xs) := by
      intro xs hxs
      simp [recordShape, conversationOf, jsonField, hxs] at h
    refine ⟨typeErrorPush, ?_⟩
    cases hjt : jsTruthy project with
    | true =>
      simp only [updateContext, hjt, if_true, setField, pushConversation]
      rw [objGet_objSet_ne _ lastTaskKey conversationKey _ (by decide),
          objGet_objSet_ne _ lastProjectKey conversationKey _ (by decide)]
      split
      · rename_i xs hxs
        exact absurd hxs (hco xs)
      · rfl
    | false =>
      simp only [updateContext, hjt, Bool.false_eq_true, if_false, setField, pushConversation]
      rw [objGet_objSet_ne _ lastTaskKey conversationKey _ (by decide)]
      split
      · rename_i xs hxs
        exact absurd hxs (hco xs)
      · rfl
  | arr xs =>
    refine ⟨typeErrorPush, ?_⟩
    cases hjt : jsTruthy project with
    | true => simp [updateContext, hjt, setField, pushConversation]
    | false => simp [updateContext, hjt, setField, pushConversation]
  | null =>
    refine ⟨typeErrorSet, ?_⟩
    cases hjt : jsTruthy project with
    | true => simp [updateContext, hjt, setField]
    | false => simp [updateContext, hjt, setField]
  | bool b =>
    refine ⟨typeErrorSet, ?_⟩
    cases hjt : jsTruthy project with
    | true => simp [updateContext, hjt, setField]
    | false => simp [updateContext, hjt, setField]
  | num n =>
    refine ⟨typeErrorSet, ?_⟩
    cases hjt : jsTruthy project with
    | true => simp [updateContext, hjt, setField]
    | false => simp [updateContext, hjt, setField]
  | str s =>
    refine ⟨typeErrorSet, ?_⟩
    cases hjt : jsTruthy project with
    | true => simp [updateContext, hjt, setField]
    | false => simp [updateContext, hjt, setField]

theorem mainFields_conversation (fields : List (Str × Json)) (conv : List Json)
    (p : Str) (project : Option Json) (t : Str) :
    objGet (mainFields fields conv p project t) conversationKey =
      some (.arr (conv ++ [turnJson roleUser p, turnJson roleAssistant t])) := by
  simp only [mainFields, objGet_objSet_same, List.append_assoc, List.singleton_append]

theorem mainFields_lastTask (fields : List (Str × Json)) (conv : List Json)
    (p : Str) (project : Option Json) (t : Str) :
    objGet (mainFields fields conv p project t) lastTaskKey = some (.str p) := by
  simp only [mainFields, contextFields,
    objGet_objSet_ne _ conversationKey lastTaskKey _ (by decide),
    objGet_objSet_same]

theorem mainFields_lastProject_none (fields : List (Str × Json)) (conv : List Json)
    (p : Str) (t : Str) :
    objGet (mainFields fields conv p none t) lastProjectKey =
      objGet fields lastProjectKey := by
  simp only [mainFields, contextFields, jsTruthy, Bool.false_eq_true, if_false,
    objGet_objSet_ne _ conversationKey lastProjectKey _ (by decide),
    objGet_objSet_ne _ lastTaskKey lastProjectKey _ (by decide)]

theorem mainFields_lastProject_some (fields : List (Str × Json)) (conv : List Json)
    (p : Str) (t : Str) (v : Json) (hv : jsTruthy (some v) = true) :
    objGet (mainFields fields conv p (some v) t) lastProjectKey = some v := by
  simp only [mainFields, contextFields, hv, if_true, Option.getD_some,
    objGet_objSet_ne _ conversationKey lastProjectKey _ (by decide),
    objGet_objSet_ne _ lastTaskKey lastProjectKey _ (by decide),
    objGet_objSet_same]

/- ===== Storage path lemmas ===== -/

theorem splitSegs_ne_nil (s : Str) : splitSegs s ≠ [] := by
  cases s with
  | nil => simp [splitSegs]
  | cons c cs =>
    simp only [splitSegs]
    by_cases h : c = '/'
    · simp [h]
    · simp [if_neg h]

theorem splitSegs_append_no_slash (u : Str) (h : '/' ∉ u) (v : Str) :
    splitSegs (u ++ v) = (u ++ (splitSegs v).headI) :: (splitSegs v).tail := by
  induction u with
  | nil =>
    cases hv : splitSegs v with
    | nil => exact absurd hv (splitSegs_ne_nil v)
    | cons s rest => simp [hv]
  | cons c cs ih =>
    have hc : c ≠ '/' := fun hh => h (by simp [hh])
    have hcs : '/' ∉ cs := fun hm => h (List.mem_cons_of_mem _ hm)
    simp only [List.cons_append, splitSegs, if_neg hc, List.append_eq]
    rw [ih hcs]
    simp

theorem splitSegs_no_slash (u : Str) (h : '/' ∉ u) : splitSegs u = [u] := by
  have := splitSegs_append_no_slash u h []
  simpa [splitSegs] using this

theorem normSegs_single (acc : List Str) (c : Char) (rest : Str) (hc : c ≠ '.') :
    normSegs acc [c :: rest] = ((c :: rest) :: acc).reverse := by
  have h1 : ¬(c :: rest = [] ∨ c :: rest = ['.']) := by
    rintro (h | h)
    · exact List.noConfusion h
    · injection h with h1 _
      exact hc h1
  have h2 : ¬(c :: rest = ['.', '.']) := by
    intro h
    injection h with h1 _
    exact hc h1
  show (if c :: rest = [] ∨ c :: rest = ['.'] then normSegs acc []
        else if c :: rest = ['.', '.'] then normSegs (acc.drop 1) []
        else normSegs ((c :: rest) :: acc) []) = ((c :: rest) :: acc).reverse
  rw [if_neg h1, if_neg h2]
  rfl

/-- For a separator-free `userId` the stored path is the plain
concatenation `/tmp/memory/memory_<userId>.json`. -/
theorem memoryFilePath_no_slash (u : Str) (h : '/' ∉ u) :
    memoryFilePath u = "/tmp/memory/memory_".toList ++ (u ++ ".json".toList) := by
  have hw : '/' ∉ ("memory_".toList ++ (u ++ ".json".toList)) := by
    intro hm
    rcases List.mem_append.mp hm with h1 | h1
    · revert h1; decide
    · rcases List.mem_append.mp h1 with h2 | h2
      · exact h h2
      · revert h2; decide
  have e1 : "tmp/memory/memory_".toList ++ u ++ ".json".toList =
      "tmp".toList ++ ('/' :: ("memory".toList ++
        ('/' :: ("memory_".toList ++ (u ++ ".json".toList))))) := by
    simp [List.append_assoc]
  have e2 : "memory_".toList ++ (u ++ ".json".toList) =
      'm' :: ("emory_".toList ++ (u ++ ".json".toList)) := rfl
  have hsplit : splitSegs ("tmp/memory/memory_".toList ++ u ++ ".json".toList) =
      ["tmp".toList, "memory".toList, "memory_".toList ++ (u ++ ".json".toList)] := by
    rw [e1]
    rw [splitSegs_append_no_slash "tmp".toList (by decide)]
    have b1 : splitSegs ('/' :: ("memory".toList ++
        ('/' :: ("memory_".toList ++ (u ++ ".json".toList))))) =
        [] :: splitSegs ("memory".toList ++
          ('/' :: ("memory_".toList ++ (u ++ ".json".toList)))) := by
      simp [splitSegs]
    rw [b1]
    rw [splitSegs_append_no_slash "memory".toList (by decide)]
    have b2 : splitSegs ('/' :: ("memory_".toList ++ (u ++ ".json".toList))) =
        [] :: splitSegs ("memory_".toList ++ (u ++ ".json".toList)) := by
      simp [splitSegs]
    rw [b2, splitSegs_no_slash _ hw]
    simp
  rw [memoryFilePath, hsplit]
  rw [e2, normSegs, normSegs, normSegs_single _ _ _ (by decide)]
  rw [← e2]
  simp [List.intercalate, List.intersperse, List.append_assoc]

/- ===== Handler-level helper lemmas ===== -/

/-- A POST request passing validation runs the main pipeline; its
outcome alone decides between the 200 and 500 responses. -/
theorem handler_post_valid (p : Str) (project : Option Json) (uid : Json)
    (fs : FileState) (svc : ServiceOutcome) (k : Fin 10)
    (hp : p ≠ []) (huid : jsTruthy (some uid) = true) :
    handler ⟨methodPOST, some (.str p), project, some uid⟩ fs svc k =
      match runMain p project uid fs svc k with
      | .ok (text, mem) =>
        ⟨.ok text (jsonField mem lastProjectKey) (jsonField mem lastTaskKey), some mem⟩
      | .error msg => ⟨.serverError msg, none⟩ := by
  have hval : validPromptOf (some (.str p)) = some p := by
    simp only [validPromptOf, List.isEmpty_eq_true, if_neg hp]
  simp only [handler, if_neg (show ¬ methodPOST = methodOPTIONS by decide), if_pos rfl,
    huid, if_pos trivial, hval, Option.getD_some]

theorem recordShape_spec (j : Json) (h : recordShape j = true) :
    ∃ fields conv, j = .obj fields ∧
      objGet fields conversationKey = some (.arr conv) := by
  cases j with
  | obj fields =>
    refine ⟨fields, ?_⟩
    cases ho : objGet fields conversationKey with
    | none => simp [recordShape, conversationOf, jsonField, ho] at h
    | some v =>
      cases v with
      | arr xs => exact ⟨xs, rfl, rfl⟩
      | null => simp [recordShape, conversationOf, jsonField, ho] at h
      | bool b => simp [recordShape, conversationOf, jsonField, ho] at h
      | num n => simp [recordShape, conversationOf, jsonField, ho] at h
      | str s => simp [recordShape, conversationOf, jsonField, ho] at h
      | obj o => simp [recordShape, conversationOf, jsonField, ho] at h
  | null => simp [recordShape, conversationOf, jsonField] at h
  | bool b => simp [recordShape, conversationOf, jsonField] at h
  | num n => simp [recordShape, conversationOf, jsonField] at h
  | str s => simp [recordShape, conversationOf, jsonField] at h
  | arr xs => simp [recordShape, conversationOf, jsonField] at h

/- ===== Claim theorems ===== -/

/-- C1: for every valid POST request whose userId has no previously
stored record, the record stored by a successful call has exactly
three turns, in order: the fixed system prompt, a user turn equal to
the request's prompt, and an assistant turn. -/
theorem claim_c1 (p : Str) (project : Option Json) (uid : Json) (content : Option Str)
    (k : Fin 10) (hp : p ≠ []) (huid : jsTruthy (some uid) = true) :
    savedConversation (handler ⟨methodPOST, some (.str p), project, some uid⟩
        .absent (.ok content) k) =
      some (some [turnJson roleSystem systemPrompt, turnJson roleUser p,
                  turnJson roleAssistant (finalText k content)]) ∧
    (handler ⟨methodPOST, some (.str p), project, some uid⟩
        .absent (.ok content) k).response.status = 200 := by
  rw [handler_good p project uid .absent (defaultFields uid)
      [turnJson roleSystem systemPrompt] content k hp huid rfl rfl]
  refine ⟨?_, rfl⟩
  simp [savedConversation, conversationOf, jsonField, mainFields_conversation]

theorem claim_c1_witness :
    savedConversation (handler ⟨methodPOST, some (.str "hi".toList), none,
        some (.str "u1".toList)⟩ .absent (.ok (some "ok".toList)) 0) =
      some (some [turnJson roleSystem systemPrompt, turnJson roleUser "hi".toList,
                  turnJson roleAssistant (finalText 0 (some "ok".toList))]) ∧
    (handler ⟨methodPOST, some (.str "hi".toList), none, some (.str "u1".toList)⟩
        .absent (.ok (some "ok".toList)) 0).response.status = 200 :=
  claim_c1 "hi".toList none (.str "u1".toList) (some "ok".toList) 0
    (by decide) (by decide)

/-- C4: for every valid request whose userId has a stored record that
loads successfully (an object with a conversation array), the saved
record keeps all prior turns unchanged and in order, with exactly one
user turn (content = prompt) and one assistant turn appended at the
tail, in that order. -/
theorem claim_c4 (p : Str) (project : Option Json) (uid : Json)
    (fields : List (Str × Json)) (conv : List Json) (content : Option Str) (k : Fin 10)
    (hp : p ≠ []) (huid : jsTruthy (some uid) = true)
    (hc : objGet fields conversationKey = some (.arr conv)) :
    savedConversation (handler ⟨methodPOST, some (.str p), project, some uid⟩
        (.parsed (.obj fields)) (.ok content) k) =
      some (some (conv ++ [turnJson roleUser p,
                           turnJson roleAssistant (finalText k content)])) := by
  rw [handler_good p project uid (.parsed (.obj fields)) fields conv content k
      hp huid rfl hc]
  simp [savedConversation, conversationOf, jsonField, mainFields_conversation]

theorem claim_c4_witness :
    savedConversation (handler ⟨methodPOST, some (.str "more".toList), none,
        some (.str "u1".toList)⟩
        (.parsed (.obj [(conversationKey, .arr [turnJson roleSystem systemPrompt])]))
        (.ok (some "sawa".toList)) 3) =
      some (some ([turnJson roleSystem systemPrompt] ++
          [turnJson roleUser "more".toList,
           turnJson roleAssistant (finalText 3 (some "sawa".toList))])) :=
  claim_c4 "more".toList none (.str "u1".toList)
    [(conversationKey, .arr [turnJson roleSystem systemPrompt])]
    [turnJson roleSystem systemPrompt] (some "sawa".toList) 3
    (by decide) (by decide) rfl

/-- C6: for every userId whose stored representation is absent or
fails to read/parse, `loadMemory` returns the freshly constructed
default record, and the failure is never surfaced: a valid request
still returns 200. -/
theorem claim_c6 (uid : Json) (p : Str) (project : Option Json) (content : Option Str)
    (k : Fin 10) (hp : p ≠ []) (huid : jsTruthy (some uid) = true) :
    loadMemory uid .absent = defaultMemory uid ∧
    loadMemory uid .unreadable = defaultMemory uid ∧
    (handler ⟨methodPOST, some (.str p), project, some uid⟩
        .unreadable (.ok content) k).response.status = 200 ∧
    (handler ⟨methodPOST, some (.str p), project, some uid⟩
        .absent (.ok content) k).response.status = 200 := by
  refine ⟨rfl, rfl, ?_, ?_⟩
  · rw [handler_good p project uid .unreadable (defaultFields uid)
        [turnJson roleSystem systemPrompt] content k hp huid rfl rfl]
    rfl
  · rw [handler_good p project uid .absent (defaultFields uid)
        [turnJson roleSystem systemPrompt] content k hp huid rfl rfl]
    rfl

theorem claim_c6_witness :
    loadMemory (.str "u2".toList) .absent = defaultMemory (.str "u2".toList) ∧
    loadMemory (.str "u2".toList) .unreadable = defaultMemory (.str "u2".toList) ∧
    (handler ⟨methodPOST, some (.str "jambo".toList), none, some (.str "u2".toList)⟩
        .unreadable (.ok (some "poa".toList)) 1).response.status = 200 ∧
    (handler ⟨methodPOST, some (.str "jambo".toList), none, some (.str "u2".toList)⟩
        .absent (.ok (some "poa".toList)) 1).response.status = 200 :=
  claim_c6 (.str "u2".toList) "jambo".toList none (some "poa".toList) 1
    (by decide) (by decide)

/-- C7: for every request in which the completion call throws, the
handler answers 500 with the fixed error message plus the thrown
message as details, and nothing is saved: the record on disk is left
exactly as it was (the in-memory user turn is never persisted). -/
theorem claim_c7 (p : Str) (project : Option Json) (uid : Json) (fs : FileState)
    (msg : Str) (k : Fin 10) (hp : p ≠ []) (huid : jsTruthy (some uid) = true)
    (hshape : recordShape (loadMemory uid fs) = true) :
    handler ⟨methodPOST, some (.str p), project, some uid⟩ fs (.error msg) k =
      ⟨.serverError msg, none⟩ ∧
    (HResponse.serverError msg).status = 500 ∧
    (HResponse.serverError msg).errorField = some msgServerError ∧
    (HResponse.serverError msg).detailsField = some msg := by
  obtain ⟨fields, conv, hload, hc⟩ := recordShape_spec _ hshape
  refine ⟨?_, rfl, rfl, rfl⟩
  rw [handler_post_valid p project uid fs (.error msg) k hp huid]
  rw [show runMain p project uid fs (.error msg) k = .error msg from by
    simp only [runMain, hload, updateContext_good fields conv p project hc]]

theorem claim_c7_witness :
    handler ⟨methodPOST, some (.str "hi".toList), none, some (.str "u3".toList)⟩
        .absent (.error "boom".toList) 0 =
      ⟨.serverError "boom".toList, none⟩ ∧
    (HResponse.serverError "boom".toList).status = 500 ∧
    (HResponse.serverError "boom".toList).errorField = some msgServerError ∧
    (HResponse.serverError "boom".toList).detailsField = some "boom".toList :=
  claim_c7 "hi".toList none (.str "u3".toList) .absent "boom".toList 0
    (by decide) (by decide) rfl

/-- C10: for every userId whose stored file holds valid JSON that is
not a well-shaped record (no array-valued `conversation`), `loadMemory`
returns the parsed value as-is (not the default), and the request then
fails with 500 and saves nothing: fail-soft defaulting covers only
read/parse failures, not shape mismatches. -/
theorem claim_c10 (j : Json) (uid : Json) (p : Str) (project : Option Json)
    (svc : ServiceOutcome) (k : Fin 10) (hp : p ≠ [])
    (huid : jsTruthy (some uid) = true) (hshape : recordShape j = false) :
    loadMemory uid (.parsed j) = j ∧
    (handler ⟨methodPOST, some (.str p), project, some uid⟩
        (.parsed j) svc k).response.status = 500 ∧
    (handler ⟨methodPOST, some (.str p), project, some uid⟩
        (.parsed j) svc k).saved = none := by
  obtain ⟨e, he⟩ := updateContext_bad j p project hshape
  have hrun : runMain p project uid (.parsed j) svc k = .error e := by
    simp only [runMain, loadMemory, he]
  rw [handler_post_valid p project uid (.parsed j) svc k hp huid, hrun]
  exact ⟨rfl, rfl, rfl⟩

theorem claim_c10_witness :
    loadMemory (.str "u4".toList) (.parsed (.obj [(userIdKey, .str "u4".toList)])) =
      .obj [(userIdKey, .str "u4".toList)] ∧
    (handler ⟨methodPOST, some (.str "hi".toList), none, some (.str "u4".toList)⟩
        (.parsed (.obj [(userIdKey, .str "u4".toList)]))
        (.ok (some "ok".toList)) 0).response.status = 500 ∧
    (handler ⟨methodPOST, some (.str "hi".toList), none, some (.str "u4".toList)⟩
        (.parsed (.obj [(userIdKey, .str "u4".toList)]))
        (.ok (some "ok".toList)) 0).saved = none :=
  claim_c10 (.obj [(userIdKey, .str "u4".toList)]) (.str "u4".toList)
    "hi".toList none (.ok (some "ok".toList)) 0 (by decide) (by decide) rfl

/-- C2 counterexample: the claim that the final text never contains
"as an ai" case-insensitively is false: for the completion text
"as an as an aiai", the single left-to-right removal pass splices the
surrounding pieces into a fresh occurrence, so the final text (for
every possible emoji pick) still contains the phrase. -/
theorem claim_c2_counterexample :
    containsCI "as an ai".toList "as an as an aiai".toList = true ∧
    sanitizeText "as an as an aiai".toList = "as an ai".toList ∧
    (∀ k : Fin 10, containsCI "as an ai".toList
        (applyEmoji k (sanitizeText "as an as an aiai".toList)) = true) := by
  decide

/-- C2 amended: each banned-phrase pass is a single left-to-right
non-overlapping case-insensitive scan that removes every match it
finds; hence whenever the completion text contains "as an ai"
(any case) at least one occurrence is removed — the sanitized text is
at least 8 characters shorter — but a removal can splice the
surrounding text into a new occurrence, so the final text is not
guaranteed to be free of the phrase. -/
theorem claim_c2_amended (t : Str) (h : containsCI "as an ai".toList t = true) :
    (sanitizeText t).length + 8 ≤ t.length := by
  rw [sanitizeText_eq]
  have h1 := removeAll_length_of_contains' "as an ai".toList t (by decide) h
  rw [show ("as an ai".toList).length = 8 from rfl] at h1
  have l2 := removeAll_length_le "i do not have feelings".toList
    (removeAll "as an ai".toList t)
  have l3 := removeAll_length_le "i am just a language model".toList
    (removeAll "i do not have feelings".toList (removeAll "as an ai".toList t))
  have l4 := removeAll_length_le "as a language model".toList
    (removeAll "i am just a language model".toList
      (removeAll "i do not have feelings".toList (removeAll "as an ai".toList t)))
  have l5 := removeAll_length_le "i cannot experience emotions".toList
    (removeAll "as a language model".toList
      (removeAll "i am just a language model".toList
        (removeAll "i do not have feelings".toList (removeAll "as an ai".toList t))))
  have l6 := removeAll_length_le "i am an artificial intelligence".toList
    (removeAll "i cannot experience emotions".toList
      (removeAll "as a language model".toList
        (removeAll "i am just a language model".toList
          (removeAll "i do not have feelings".toList
            (removeAll "as an ai".toList t)))))
  omega

theorem claim_c2_amended_witness :
    (sanitizeText "As an AI".toList).length + 8 ≤ ("As an AI".toList).length :=
  claim_c2_amended "As an AI".toList (by decide)

/-- C3 counterexample: the robot emoji 🤖 is none of the approved
glyphs, yet the presence test fires on its UTF-16 high surrogate
(shared with 🤗 in the class written without the `u` flag), so no
glyph is appended — refuting the claim that a glyph is appended to
every text containing no approved glyph. -/
theorem claim_c3_counterexample :
    (∀ g ∈ emojiClassChars, g ∉ "🤖".toList) ∧
    (∀ k : Fin 10, applyEmoji k "🤖".toList = "🤖".toList) := by
  decide

/-- C3 amended: the presence test compares UTF-16 code units of the
text against the code units of the class text (lone surrogate halves
included, since the class regex lacks the `u` flag). For a sanitized
text none of whose code units is in that set, the final text is the
sanitized text, a single space and one glyph of the ten-element
candidate set; for a text containing any code point of the class
(every approved glyph in particular), nothing is appended. -/
theorem claim_c3_amended (t1 t2 : Str) (k1 k2 : Fin 10) (g : Char)
    (h1 : ∀ c ∈ t1, ∀ u ∈ utf16Units c, emojiClassUnits.contains u = false)
    (hg : g ∈ emojiClassChars) (hgt : g ∈ t2) :
    applyEmoji k1 t1 = t1 ++ ' ' :: emojiCandidates.getD k1.val [] ∧
    emojiCandidates.getD k1.val [] ∈ emojiCandidates ∧
    applyEmoji k2 t2 = t2 := by
  have hs1 : hasEmojiSignal t1 = false := by
    simp only [hasEmojiSignal, List.any_eq_false]
    intro c hc hcu
    rw [List.any_eq_true] at hcu
    obtain ⟨u, hu, hcu⟩ := hcu
    rw [h1 c hc u hu] at hcu
    exact Bool.false_ne_true hcu
  have hmem : ∀ g' ∈ emojiClassChars,
      (utf16Units g').any (fun u => emojiClassUnits.contains u) = true := by decide
  have hs2 : hasEmojiSignal t2 = true := by
    simp only [hasEmojiSignal, List.any_eq_true]
    exact ⟨g, hgt, by simpa using hmem g hg⟩
  refine ⟨?_, ?_, ?_⟩
  · simp [applyEmoji, hs1]
  · exact (by decide : ∀ k : Fin 10, emojiCandidates.getD k.val [] ∈ emojiCandidates) k1
  · simp [applyEmoji, hs2]

theorem claim_c3_amended_witness :
    applyEmoji 0 "hello".toList = "hello".toList ++ ' ' :: emojiCandidates.getD (0 : Fin 10).val [] ∧
    emojiCandidates.getD (0 : Fin 10).val [] ∈ emojiCandidates ∧
    applyEmoji 5 "great 🔥".toList = "great 🔥".toList :=
  claim_c3_amended "hello".toList "great 🔥".toList 0 5 '🔥'
    (by decide) (by decide) (by decide)

/-- C9 counterexample: the distinct userIds "a/./b" and "a/b" address
the same storage path after `path.join`'s normalization, refuting the
claim that every pair of distinct userIds maps to distinct keys. -/
theorem claim_c9_counterexample :
    "a/./b".toList ≠ "a/b".toList ∧
    memoryFilePath "a/./b".toList = memoryFilePath "a/b".toList := by
  decide

/-- C9 amended: for userIds containing no path separator `/`, the
storage key `/tmp/memory/memory_<userId>.json` is injective, so
requests for two such distinct users never share a file; userIds
containing separators can collide after normalization. -/
theorem claim_c9_amended (u1 u2 : Str) (h1 : '/' ∉ u1) (h2 : '/' ∉ u2)
    (hne : u1 ≠ u2) : memoryFilePath u1 ≠ memoryFilePath u2 := by
  rw [memoryFilePath_no_slash u1 h1, memoryFilePath_no_slash u2 h2]
  intro he
  exact hne (List.append_cancel_right (List.append_cancel_left he))

theorem claim_c9_amended_witness :
    memoryFilePath "alice".toList ≠ memoryFilePath "bob".toList :=
  claim_c9_amended "alice".toList "bob".toList (by decide) (by decide) (by decide)

/-- C5: a POST request with falsy userId answers 400 "Missing
userId."; a POST with truthy userId and a missing/empty/non-string
prompt answers 400 "Invalid request: prompt required."; any method
other than POST/OPTIONS answers 405; in all three cases the result is
a constant independent of the file state and the completion service
(no record is read) and nothing is saved (no record created or
mutated). -/
theorem claim_c5 (r1 r2 r3 : Request) (fs1 fs2 fs3 : FileState)
    (svc1 svc2 svc3 : ServiceOutcome) (k1 k2 k3 : Fin 10)
    (h1m : r1.method = methodPOST) (h1u : jsTruthy r1.userId = false)
    (h2m : r2.method = methodPOST) (h2u : jsTruthy r2.userId = true)
    (h2p : validPromptOf r2.prompt = none)
    (h3m : r3.method ≠ methodPOST) (h3o : r3.method ≠ methodOPTIONS) :
    handler r1 fs1 svc1 k1 = ⟨.badRequest msgMissingUserId, none⟩ ∧
    handler r2 fs2 svc2 k2 = ⟨.badRequest msgPromptRequired, none⟩ ∧
    handler r3 fs3 svc3 k3 = ⟨.methodNotAllowed, none⟩ ∧
    (HResponse.badRequest msgMissingUserId).status = 400 ∧
    (HResponse.badRequest msgPromptRequired).status = 400 ∧
    (HResponse.badRequest msgMissingUserId).errorField = some msgMissingUserId ∧
    (HResponse.badRequest msgPromptRequired).errorField = some msgPromptRequired ∧
    HResponse.methodNotAllowed.status = 405 ∧
    HResponse.methodNotAllowed.errorField = some msgMethodNotAllowed := by
  refine ⟨?_, ?_, ?_, rfl, rfl, rfl, rfl, rfl, rfl⟩
  · simp only [handler, h1m, if_neg (show ¬ methodPOST = methodOPTIONS by decide),
      if_pos rfl, h1u, Bool.false_eq_true, if_false, if_true]
  · cases hpr : r2.prompt with
    | none =>
      simp only [handler, h2m, if_neg (show ¬ methodPOST = methodOPTIONS by decide),
        if_pos rfl, h2u, if_pos trivial, hpr, validPromptOf]
    | some v =>
      rw [hpr] at h2p
      simp only [handler, h2m, if_neg (show ¬ methodPOST = methodOPTIONS by decide),
        if_pos rfl, h2u, if_pos trivial, hpr, h2p]
  · simp only [handler, if_neg h3o, if_neg h3m]

theorem claim_c5_witness :
    handler ⟨methodPOST, some (.str "hi".toList), none, none⟩ .absent (.ok none) 0 =
      ⟨.badRequest msgMissingUserId, none⟩ ∧
    handler ⟨methodPOST, some (.str []), none, some (.str "u".toList)⟩
        .unreadable (.error "e".toList) 1 =
      ⟨.badRequest msgPromptRequired, none⟩ ∧
    handler ⟨"GET".toList, some (.str "hi".toList), none, some (.str "u".toList)⟩
        .absent (.ok none) 2 =
      ⟨.methodNotAllowed, none⟩ ∧
    (HResponse.badRequest msgMissingUserId).status = 400 ∧
    (HResponse.badRequest msgPromptRequired).status = 400 ∧
    (HResponse.badRequest msgMissingUserId).errorField = some msgMissingUserId ∧
    (HResponse.badRequest msgPromptRequired).errorField = some msgPromptRequired ∧
    HResponse.methodNotAllowed.status = 405 ∧
    HResponse.methodNotAllowed.errorField = some msgMethodNotAllowed :=
  claim_c5 ⟨methodPOST, some (.str "hi".toList), none, none⟩
    ⟨methodPOST, some (.str []), none, some (.str "u".toList)⟩
    ⟨"GET".toList, some (.str "hi".toList), none, some (.str "u".toList)⟩
    .absent .unreadable .absent (.ok none) (.error "e".toList) (.ok none) 0 1 2
    rfl (by decide) rfl (by decide) (by decide) (by decide) (by decide)

/-- C8: every successful request stores and returns `lastTask` equal
to the prompt; `lastProject` is set to the supplied (truthy string)
project value and otherwise retained from the loaded record; in
particular a call with project "Alpha" followed by a call for the
same user omitting project leaves the stored `lastProject` equal to
"Alpha". -/
theorem claim_c8
    (p ps : Str) (projectA : Option Json) (uid : Json)
    (fields fieldsB : List (Str × Json))
    (conv convB : List Json) (content contentB : Option Str) (k kB : Fin 10) (s : Str)
    (p1 p2 : Str) (uid2 : Json) (c1 c2 : Option Str) (k1 k2 : Fin 10)
    (hp : p ≠ []) (huid : jsTruthy (some uid) = true)
    (hc : objGet fields conversationKey = some (.arr conv))
    (hps : ps ≠ []) (hcB : objGet fieldsB conversationKey = some (.arr convB))
    (hs : s ≠ [])
    (hp1 : p1 ≠ []) (hp2 : p2 ≠ []) (huid2 : jsTruthy (some uid2) = true) :
    savedField (handler ⟨methodPOST, some (.str p), projectA, some uid⟩
        (.parsed (.obj fields)) (.ok content) k) lastTaskKey =
      some (some (.str p)) ∧
    (handler ⟨methodPOST, some (.str p), projectA, some uid⟩
        (.parsed (.obj fields)) (.ok content) k).response.lastTaskField =
      some (some (.str p)) ∧
    savedField (handler ⟨methodPOST, some (.str p), none, some uid⟩
        (.parsed (.obj fields)) (.ok content) k) lastProjectKey =
      some (objGet fields lastProjectKey) ∧
    savedField (handler ⟨methodPOST, some (.str ps), some (.str s), some uid⟩
        (.parsed (.obj fieldsB)) (.ok contentB) kB) lastProjectKey =
      some (some (.str s)) ∧
    savedField
      (handler ⟨methodPOST, some (.str p2), none, some uid2⟩
        (nextFileState .absent
          (handler ⟨methodPOST, some (.str p1), some (.str "Alpha".toList), some uid2⟩
            .absent (.ok c1) k1))
        (.ok c2) k2) lastProjectKey = some (some (.str "Alpha".toList)) := by
  have htr : jsTruthy (some (.str s)) = true := by
    simp [jsTruthy, List.isEmpty_eq_true, hs]
  have hAlpha : jsTruthy (some (.str "Alpha".toList)) = true := by decide
  rw [handler_good p projectA uid (.parsed (.obj fields)) fields conv content k
      hp huid rfl hc]
  rw [handler_good p none uid (.parsed (.obj fields)) fields conv content k
      hp huid rfl hc]
  rw [handler_good ps (some (.str s)) uid (.parsed (.obj fieldsB)) fieldsB convB
      contentB kB hps huid rfl hcB]
  rw [handler_good p1 (some (.str "Alpha".toList)) uid2 .absent (defaultFields uid2)
      [turnJson roleSystem systemPrompt] c1 k1 hp1 huid2 rfl rfl]
  rw [show nextFileState .absent
        ⟨.ok (finalText k1 c1)
          (objGet (mainFields (defaultFields uid2) [turnJson roleSystem systemPrompt]
            p1 (some (.str "Alpha".toList)) (finalText k1 c1)) lastProjectKey)
          (objGet (mainFields (defaultFields uid2) [turnJson roleSystem systemPrompt]
            p1 (some (.str "Alpha".toList)) (finalText k1 c1)) lastTaskKey),
         some (.obj (mainFields (defaultFields uid2) [turnJson roleSystem systemPrompt]
            p1 (some (.str "Alpha".toList)) (finalText k1 c1)))⟩ =
      .parsed (.obj (mainFields (defaultFields uid2) [turnJson roleSystem systemPrompt]
        p1 (some (.str "Alpha".toList)) (finalText k1 c1))) from rfl]
  rw [handler_good p2 none uid2
      (.parsed (.obj (mainFields (defaultFields uid2) [turnJson roleSystem systemPrompt]
        p1 (some (.str "Alpha".toList)) (finalText k1 c1))))
      (mainFields (defaultFields uid2) [turnJson roleSystem systemPrompt]
        p1 (some (.str "Alpha".toList)) (finalText k1 c1))
      ([turnJson roleSystem systemPrompt] ++
        [turnJson roleUser p1, turnJson roleAssistant (finalText k1 c1)])
      c2 k2 hp2 huid2 rfl (mainFields_conversation _ _ _ _ _)]
  refine ⟨?_, ?_, ?_, ?_, ?_⟩
  · simp only [savedField, Option.map_some', jsonField, mainFields_lastTask]
  · simp only [HResponse.lastTaskField, mainFields_lastTask]
  · simp only [savedField, Option.map_some', jsonField, mainFields_lastProject_none]
  · simp only [savedField, Option.map_some', jsonField,
      mainFields_lastProject_some _ _ _ _ _ htr]
  · simp only [savedField, Option.map_some', jsonField, mainFields_lastProject_none,
      mainFields_lastProject_some _ _ _ _ _ hAlpha]

theorem claim_c8_witness :
    savedField (handler ⟨methodPOST, some (.str "t1".toList),
        some (.str "Gamma".toList), some (.str "u".toList)⟩
        (.parsed (.obj [(conversationKey, .arr [])])) (.ok (some "r".toList)) 0)
        lastTaskKey = some (some (.str "t1".toList)) ∧
    (handler ⟨methodPOST, some (.str "t1".toList), some (.str "Gamma".toList),
        some (.str "u".toList)⟩
        (.parsed (.obj [(conversationKey, .arr [])])) (.ok (some "r".toList))
        0).response.lastTaskField = some (some (.str "t1".toList)) ∧
    savedField (handler ⟨methodPOST, some (.str "t1".toList), none,
        some (.str "u".toList)⟩
        (.parsed (.obj [(conversationKey, .arr [])])) (.ok (some "r".toList)) 0)
        lastProjectKey = some (objGet [(conversationKey, .arr [])] lastProjectKey) ∧
    savedField (handler ⟨methodPOST, some (.str "t2".toList),
        some (.str "Beta".toList), some (.str "u".toList)⟩
        (.parsed (.obj [(conversationKey, .arr [])])) (.ok (some "r".toList)) 1)
        lastProjectKey = some (some (.str "Beta".toList)) ∧
    savedField
      (handler ⟨methodPOST, some (.str "t4".toList), none, some (.str "w".toList)⟩
        (nextFileState .absent
          (handler ⟨methodPOST, some (.str "t3".toList),
            some (.str "Alpha".toList), some (.str "w".toList)⟩
            .absent (.ok (some "r1".toList)) 2))
        (.ok (some "r2".toList)) 3) lastProjectKey =
      some (some (.str "Alpha".toList)) :=
  claim_c8 "t1".toList "t2".toList (some (.str "Gamma".toList)) (.str "u".toList)
    [(conversationKey, .arr [])] [(conversationKey, .arr [])] [] []
    (some "r".toList) (some "r".toList) 0 1 "Beta".toList
    "t3".toList "t4".toList (.str "w".toList)
    (some "r1".toList) (some "r2".toList) 2 3
    (by decide) (by decide) rfl (by decide) rfl (by decide)
    (by decide) (by decide) (by decide)

end MaxGen
